import Mathlib

/-!
# Kaleidoscope (`script.js`): a shallow embedding

The class `Kaleidoscope` of `script.js` draws a recursive branching figure on
an offscreen canvas (`drawFractal`, `drawPattern`) and stamps that canvas on
the visible one, once per slice (`draw`).

* Numbers of the host language are a type `α` together with a record `Arith α`
  of the operations the script uses.  Nothing is assumed about them unless a
  statement says so; two instances are given, exact arithmetic in a field and
  IEEE-754 binary64 (the numbers `script.js` really runs on).
* The integer-valued fields (`slices`, `iterations`, `hue`, the canvas
  dimensions) are natural numbers.
* A method that calls the 2D context returns the list of the calls it makes,
  in order.  `Ctx.step` interprets those calls the way a canvas context does
  (transform, `save`/`restore` stack, current path), and yields what is
  painted.
-/

set_option exponentiation.threshold 5000

namespace Kaleidoscope

/-! ## Numbers -/

/-- The number operations `script.js` uses, on a carrier `α`. -/
structure Arith (α : Type) where
  /-- an integer literal, a loop counter, or a canvas dimension -/
  ofNat : Nat → α
  /-- the decimal literal `m / 10 ^ e` (`0.7` is `dec 7 1`) -/
  dec : Nat → Nat → α
  add : α → α → α
  sub : α → α → α
  mul : α → α → α
  div : α → α → α
  neg : α → α
  cos : α → α
  sin : α → α
  /-- the constant `Math.PI` -/
  pi : α

/-- Exact arithmetic in a field `K`, for given `cos`, `sin` and `pi`. -/
def Arith.ofField (K : Type) [Field K] (cosK sinK : K → K) (piK : K) : Arith K :=
  { ofNat := fun n => (n : K)
    dec := fun m e => (m : K) / 10 ^ e
    add := fun a b => a + b
    sub := fun a b => a - b
    mul := fun a b => a * b
    div := fun a b => a / b
    neg := fun a => -a
    cos := cosK
    sin := sinK
    pi := piK }

/-- An IEEE-754 binary64 value, the Number type of the host language.
`fin neg k` is the finite value `± k * 2 ^ (-1074)`: every finite binary64
value is such a multiple. -/
inductive Binary64 where
  | nan
  | inf (neg : Bool)
  | fin (neg : Bool) (k : Nat)
deriving DecidableEq, Repr

namespace Binary64

/-- The integer nearest to `p / q`, ties to even. -/
def roundDiv (p q : Nat) : Nat :=
  let n := p / q
  let r := p % q
  if 2 * r < q then n
  else if q < 2 * r then n + 1
  else if n % 2 = 0 then n else n + 1

/-- The position of the leading bit of `n`, for `1 ≤ n < 2 ^ 8192`. -/
def ilog2 (n : Nat) : Nat :=
  [4096, 2048, 1024, 512, 256, 128, 64, 32, 16, 8, 4, 2, 1].foldl
    (fun e b => if 2 ^ (e + b) ≤ n then e + b else e) 0

/-- Round `p / q` units of `2 ^ (-1074)` to the nearest value with a 53-bit
significand, ties to even, the exponent not bounded above. -/
def rne (p q : Nat) : Nat :=
  let n := p / q
  if n < 2 ^ 53 then roundDiv p q
  else
    let sh := ilog2 n - 52
    roundDiv p (q * 2 ^ sh) * 2 ^ sh

/-- The binary64 value of `± p / q` units: rounded, infinite on overflow. -/
def round (neg : Bool) (p q : Nat) : Binary64 :=
  let k := rne p q
  if k < 2 ^ 2098 then fin neg k else inf neg

/-- The value of a non-negative integer. -/
def ofNat (n : Nat) : Binary64 := round false (n * 2 ^ 1074) 1

/-- The value of the decimal literal `m / 10 ^ e`. -/
def dec (m e : Nat) : Binary64 := round false (m * 2 ^ 1074) (10 ^ e)

/-- Unary minus. -/
def neg : Binary64 → Binary64
  | nan => nan
  | inf s => inf (!s)
  | fin s k => fin (!s) k

/-- Addition, rounded to nearest, ties to even. -/
def add : Binary64 → Binary64 → Binary64
  | nan, _ => nan
  | _, nan => nan
  | inf a, inf b => if a = b then inf a else nan
  | inf a, fin _ _ => inf a
  | fin _ _, inf b => inf b
  | fin a k, fin b l =>
      if a = b then round a (k + l) 1
      else if l < k then round a (k - l) 1
      else if k < l then round b (l - k) 1
      else fin false 0

/-- Subtraction. -/
def sub (x y : Binary64) : Binary64 := add x (neg y)

/-- Multiplication, rounded to nearest, ties to even. -/
def mul : Binary64 → Binary64 → Binary64
  | nan, _ => nan
  | _, nan => nan
  | inf a, inf b => inf (a != b)
  | inf a, fin b l => if l = 0 then nan else inf (a != b)
  | fin a k, inf b => if k = 0 then nan else inf (a != b)
  | fin a k, fin b l => round (a != b) (k * l) (2 ^ 1074)

/-- Division, rounded to nearest, ties to even; a division by zero gives an
infinity or NaN and raises nothing. -/
def div : Binary64 → Binary64 → Binary64
  | nan, _ => nan
  | _, nan => nan
  | inf _, inf _ => nan
  | inf a, fin b _ => inf (a != b)
  | fin a _, inf b => fin (a != b) 0
  | fin a k, fin b l =>
      if l = 0 then (if k = 0 then nan else inf (a != b))
      else round (a != b) (k * 2 ^ 1074) l

/-- The constant `Math.PI`, `0x400921FB54442D18`. -/
def pi : Binary64 := fin false (884279719003555 * 2 ^ 1026)

/-- The exact value of a finite number, in units of `2 ^ (-1074)`. -/
def units : Binary64 → Option Int
  | nan => none
  | inf _ => none
  | fin s k => some (if s then -(k : Int) else (k : Int))

end Binary64

/-- The arithmetic of the host language: binary64, for given `Math.cos` and
`Math.sin` (which the language leaves to the implementation). -/
def Arith.binary64 (cosB sinB : Binary64 → Binary64) : Arith Binary64 :=
  { ofNat := Binary64.ofNat
    dec := Binary64.dec
    add := Binary64.add
    sub := Binary64.sub
    mul := Binary64.mul
    div := Binary64.div
    neg := Binary64.neg
    cos := cosB
    sin := sinB
    pi := Binary64.pi }

/-! ## The 2D context: calls and their interpretation -/

/-- A colour `hsl(hue, sat%, light%)`. -/
structure Hsl where
  hue : Nat
  sat : Nat
  light : Nat
deriving DecidableEq, Repr

/-- The calls `script.js` makes on a `CanvasRenderingContext2D`.
`drawImage x y` always has the buffer canvas as its image. -/
inductive Cmd (α : Type) where
  | save
  | restore
  | setTransform (a b c d e f : α)
  | translate (x y : α)
  | rotate (a : α)
  | scale (x y : α)
  | clearRect (x y w h : α)
  | strokeStyle (c : Hsl)
  | lineWidth (w : α)
  | beginPath
  | moveTo (x y : α)
  | lineTo (x y : α)
  | stroke
  | drawImage (x y : α)
deriving DecidableEq, Repr

/-- One factor of a current transformation matrix, kept symbolic. -/
inductive TOp (α : Type) where
  | matrix (a b c d e f : α)
  | translate (x y : α)
  | rotate (a : α)
  | scale (x y : α)
deriving DecidableEq, Repr

/-- A path point: user coordinates and the transformation they were given
under. -/
structure Pt (α : Type) where
  ctm : List (TOp α)
  x : α
  y : α
deriving DecidableEq, Repr

/-- What `save` pushes. -/
structure Saved (α : Type) where
  transform : List (TOp α)
  strokeStyle : Hsl
  lineWidth : α
deriving DecidableEq, Repr

/-- The state of a 2D context. The current path is not part of what `save`
keeps. -/
structure Ctx (α : Type) where
  transform : List (TOp α)
  strokeStyle : Hsl
  lineWidth : α
  stack : List (Saved α)
  path : List (Pt α × Pt α)
  cur : Option (Pt α)
deriving DecidableEq, Repr

/-- What a call paints. -/
inductive Item (α : Type) where
  | clear (ctm : List (TOp α)) (x y w h : α)
  | segment (style : Hsl) (width : α) (p q : Pt α)
  | blit (ctm : List (TOp α)) (x y : α)
deriving DecidableEq, Repr

/-- One call on a context: the new context state and what was painted. -/
def Ctx.step {α : Type} (c : Ctx α) : Cmd α → Ctx α × List (Item α)
  | .save =>
      ({ c with stack := ⟨c.transform, c.strokeStyle, c.lineWidth⟩ :: c.stack }, [])
  | .restore =>
      match c.stack with
      | [] => (c, [])
      | sv :: rest =>
          ({ c with transform := sv.transform, strokeStyle := sv.strokeStyle,
                    lineWidth := sv.lineWidth, stack := rest }, [])
  | .setTransform a b cc d e f => ({ c with transform := [.matrix a b cc d e f] }, [])
  | .translate x y => ({ c with transform := c.transform ++ [.translate x y] }, [])
  | .rotate a => ({ c with transform := c.transform ++ [.rotate a] }, [])
  | .scale x y => ({ c with transform := c.transform ++ [.scale x y] }, [])
  | .clearRect x y w h => (c, [.clear c.transform x y w h])
  | .strokeStyle col => ({ c with strokeStyle := col }, [])
  | .lineWidth w => ({ c with lineWidth := w }, [])
  | .beginPath => ({ c with path := [], cur := none }, [])
  | .moveTo x y => ({ c with cur := some ⟨c.transform, x, y⟩ }, [])
  | .lineTo x y =>
      match c.cur with
      | none => ({ c with cur := some ⟨c.transform, x, y⟩ }, [])
      | some p =>
          ({ c with path := c.path ++ [(p, ⟨c.transform, x, y⟩)],
                    cur := some ⟨c.transform, x, y⟩ }, [])
  | .stroke => (c, c.path.map fun pq => .segment c.strokeStyle c.lineWidth pq.1 pq.2)
  | .drawImage x y => (c, [.blit c.transform x y])

/-- A sequence of calls on one context. -/
def Ctx.run {α : Type} (c : Ctx α) : List (Cmd α) → Ctx α × List (Item α)
  | [] => (c, [])
  | cmd :: rest =>
      let r := c.step cmd
      let r2 := Ctx.run r.1 rest
      (r2.1, r.2 ++ r2.2)

/-- The two canvases of the script. -/
inductive Surface where
  | buffer
  | visible
deriving DecidableEq, Repr

/-- What one frame does, in order: calls on the context of one of the two
canvases, and the request for the next frame. -/
inductive Event (α : Type) where
  | ctx (s : Surface) (c : Cmd α)
  | requestAnimationFrame
deriving DecidableEq, Repr

/-- The contexts of the two canvases. -/
structure Canvases (α : Type) where
  buffer : Ctx α
  visible : Ctx α

/-- One event on the two contexts. -/
def Canvases.step {α : Type} (w : Canvases α) : Event α → Canvases α × List (Surface × Item α)
  | .ctx .buffer c =>
      let r := w.buffer.step c
      ({ w with buffer := r.1 }, r.2.map fun it => (Surface.buffer, it))
  | .ctx .visible c =>
      let r := w.visible.step c
      ({ w with visible := r.1 }, r.2.map fun it => (Surface.visible, it))
  | .requestAnimationFrame => (w, [])

/-- What a sequence of events paints, in order, each item with its canvas. -/
def Canvases.paint {α : Type} (w : Canvases α) : List (Event α) → Canvases α × List (Surface × Item α)
  | [] => (w, [])
  | e :: rest =>
      let r := w.step e
      let r2 := Canvases.paint r.1 rest
      (r2.1, r.2 ++ r2.2)

/-! ## The class `Kaleidoscope` -/

/-- The fields of a `Kaleidoscope` object, with the dimensions of its two
canvases. -/
structure State (α : Type) where
  canvasWidth : Nat
  canvasHeight : Nat
  bufferWidth : Nat
  bufferHeight : Nat
  slices : Nat
  radius : α
  angle : α
  scale : α
  iterations : Nat
  animate : Bool
  rotationSpeed : α
  rotation : α
  offsetX : α
  offsetY : α
  hue : Nat
deriving DecidableEq, Repr

/-- The fields as the constructor sets them, for a window of `width` by
`height`; `resize` gives both canvases these dimensions (its `translate` acts
on the buffer context, which is part of `Canvases`, not of the fields). -/
def State.new {α : Type} (A : Arith α) (slices : Nat) (radius : α) (width height : Nat) : State α :=
  { canvasWidth := width
    canvasHeight := height
    bufferWidth := width
    bufferHeight := height
    slices := slices
    radius := radius
    angle := A.div A.pi (A.ofNat 4)
    scale := A.dec 7 1
    iterations := 5
    animate := true
    rotationSpeed := A.dec 2 2
    rotation := A.ofNat 0
    offsetX := A.ofNat 0
    offsetY := A.ofNat 0
    hue := 0 }

/-- The calls of `drawFractal(x, y, angle, size, depth)` on the buffer
context. The depth is a natural number, so the test `depth <= 0` is the case
`depth = 0`. -/
def drawFractal {α : Type} (A : Arith α) (s : State α) (x y angle size : α) : Nat → List (Cmd α)
  | 0 => []
  | depth + 1 =>
      let endX := A.add x (A.mul (A.cos angle) size)
      let endY := A.add y (A.mul (A.sin angle) size)
      [Cmd.strokeStyle ⟨s.hue, 100, 70⟩, Cmd.lineWidth (A.ofNat 2), Cmd.beginPath,
        Cmd.moveTo x y, Cmd.lineTo endX endY, Cmd.stroke]
      ++ drawFractal A s endX endY (A.add angle s.angle) (A.mul size s.scale) depth
      ++ drawFractal A s endX endY (A.sub angle s.angle) (A.mul size s.scale) depth

/-- The calls of `drawPattern()` on the buffer context. -/
def drawPatternCmds {α : Type} (A : Arith α) (s : State α) : List (Cmd α) :=
  [Cmd.save,
    Cmd.setTransform (A.ofNat 1) (A.ofNat 0) (A.ofNat 0) (A.ofNat 1) (A.ofNat 0) (A.ofNat 0),
    Cmd.clearRect (A.ofNat 0) (A.ofNat 0) (A.ofNat s.bufferWidth) (A.ofNat s.bufferHeight),
    Cmd.restore]
  ++ drawFractal A s (A.ofNat 0) (A.mul (A.neg s.radius) s.scale)
      (A.div (A.neg A.pi) (A.ofNat 2)) s.radius s.iterations

/-- The method `drawPattern()`: the object afterwards and the calls made. -/
def drawPattern {α : Type} (A : Arith α) (s : State α) : State α × List (Cmd α) :=
  ({ s with hue := (s.hue + 1) % 360 }, drawPatternCmds A s)

/-- The calls of one turn `i` of the loop of `draw()` on the visible
context. -/
def sliceCmds {α : Type} (A : Arith α) (s : State α) (step : α) (i : Nat) : List (Cmd α) :=
  [Cmd.save, Cmd.rotate (A.add (A.mul (A.ofNat i) step) s.rotation)]
  ++ (if i % 2 = 1 then [Cmd.scale (A.neg (A.ofNat 1)) (A.ofNat 1)] else [])
  ++ [Cmd.drawImage (A.div (A.neg (A.ofNat s.canvasWidth)) (A.ofNat 2))
        (A.neg (A.ofNat s.canvasHeight)),
      Cmd.restore]

/-- The loop `for (let i = 0; i < n; i++)` of `draw()`, from `i` on, with
`k` turns left. -/
def sliceLoop {α : Type} (A : Arith α) (s : State α) (step : α) (i : Nat) : Nat → List (Cmd α)
  | 0 => []
  | k + 1 => sliceCmds A s step i ++ sliceLoop A s step (i + 1) k

/-- The calls of `draw()` on the visible context, for the object `s` as
`drawPattern()` left it. -/
def compositeCmds {α : Type} (A : Arith α) (s : State α) : List (Cmd α) :=
  let step := A.div (A.mul A.pi (A.ofNat 2)) (A.ofNat s.slices)
  [Cmd.setTransform (A.ofNat 1) (A.ofNat 0) (A.ofNat 0) (A.ofNat 1) (A.ofNat 0) (A.ofNat 0),
    Cmd.clearRect (A.ofNat 0) (A.ofNat 0) (A.ofNat s.canvasWidth) (A.ofNat s.canvasHeight),
    Cmd.translate (A.div (A.ofNat s.canvasWidth) (A.ofNat 2))
      (A.div (A.ofNat s.canvasHeight) (A.ofNat 2))]
  ++ sliceLoop A s step 0 s.slices

/-- The method `draw()`: the object afterwards and the events of the frame.
The next frame is requested, not run. -/
def draw {α : Type} (A : Arith α) (s : State α) : State α × List (Event α) :=
  let p := drawPattern A s
  let s1 := p.1
  let s2 := if s1.animate then { s1 with rotation := A.add s1.rotation s1.rotationSpeed } else s1
  (s2,
    p.2.map (Event.ctx Surface.buffer)
      ++ (compositeCmds A s1).map (Event.ctx Surface.visible)
      ++ [Event.requestAnimationFrame])

/-- The object after `n` frames, with no field edited in between. -/
def frames {α : Type} (A : Arith α) : Nat → State α → State α
  | 0, s => s
  | n + 1, s => frames A n (draw A s).1

/-! ## The calls of `drawFractal` as a tree -/

/-- The arguments of one call `drawFractal(x, y, angle, size, depth)` that
draws a segment (`depth > 0`). -/
structure Call (α : Type) where
  x : α
  y : α
  angle : α
  size : α
  depth : Nat
deriving DecidableEq, Repr

/-- The constant `endX` of a call. -/
def Call.endX {α : Type} (A : Arith α) (c : Call α) : α := A.add c.x (A.mul (A.cos c.angle) c.size)

/-- The constant `endY` of a call. -/
def Call.endY {α : Type} (A : Arith α) (c : Call α) : α := A.add c.y (A.mul (A.sin c.angle) c.size)

/-- The drawing calls of one `drawFractal`: a call and the two it makes. -/
inductive CallTree (α : Type) where
  | leaf
  | node (c : Call α) (left right : CallTree α)
deriving DecidableEq, Repr

/-- The tree of the calls of `drawFractal(x, y, angle, size, depth)`, read
off its body: nothing at depth 0, else this call, then the call with
`angle + this.angle`, then the call with `angle - this.angle`. -/
def callTree {α : Type} (A : Arith α) (s : State α) (x y angle size : α) : Nat → CallTree α
  | 0 => CallTree.leaf
  | depth + 1 =>
      let endX := A.add x (A.mul (A.cos angle) size)
      let endY := A.add y (A.mul (A.sin angle) size)
      CallTree.node ⟨x, y, angle, size, depth + 1⟩
        (callTree A s endX endY (A.add angle s.angle) (A.mul size s.scale) depth)
        (callTree A s endX endY (A.sub angle s.angle) (A.mul size s.scale) depth)

/-- The calls in the order they are made. -/
def CallTree.preorder {α : Type} : CallTree α → List (Call α)
  | .leaf => []
  | .node c l r => c :: (l.preorder ++ r.preorder)

/-- The calls `j` levels below the root. -/
def CallTree.level {α : Type} : CallTree α → Nat → List (Call α)
  | .leaf, _ => []
  | .node c _ _, 0 => [c]
  | .node _ l r, j + 1 => l.level j ++ r.level j

/-- The first call. -/
def CallTree.root {α : Type} : CallTree α → Option (Call α)
  | .leaf => none
  | .node c _ _ => some c

/-- The tree of the calls `drawPattern()` sets off. -/
def patternTree {α : Type} (A : Arith α) (s : State α) : CallTree α :=
  callTree A s (A.ofNat 0) (A.mul (A.neg s.radius) s.scale)
    (A.div (A.neg A.pi) (A.ofNat 2)) s.radius s.iterations

/-- The segment one call strokes, on a context whose transformation is `T`,
for the object `s`. -/
def segmentOf {α : Type} (A : Arith α) (s : State α) (T : List (TOp α)) (c : Call α) : Item α :=
  Item.segment ⟨s.hue, 100, 70⟩ (A.ofNat 2) ⟨T, c.x, c.y⟩ ⟨T, c.endX A, c.endY A⟩

/-- The recursion rule in the words of the specification, for one of the two
recursive calls of a branch `c` (`turn` is `+` or `-`): from the end point `E`,
with angle `A ± branchAngle`, length `L * branchScale` and depth `D - 1`,
which draws nothing when that depth is 0. -/
def RuleChild {α : Type} (A : Arith α) (s : State α) (c : Call α) (turn : α → α → α) :
    CallTree α → Prop
  | .leaf => c.depth = 1
  | .node c2 _ _ =>
      1 < c.depth ∧
        c2 = ⟨c.endX A, c.endY A, turn c.angle s.angle, A.mul c.size s.scale, c.depth - 1⟩

/-- A tree of calls follows the recursion rule of the specification. -/
def FollowsRule {α : Type} (A : Arith α) (s : State α) : CallTree α → Prop
  | .leaf => True
  | .node c l r =>
      0 < c.depth ∧ RuleChild A s c A.add l ∧ RuleChild A s c A.sub r ∧
        FollowsRule A s l ∧ FollowsRule A s r

/-- The power `x ^ j` computed with the multiplication of `A`. -/
def Arith.pow {α : Type} (A : Arith α) (x : α) : Nat → α
  | 0 => A.ofNat 1
  | j + 1 => A.mul (A.pow x j) x

/-! ## What is painted: selectors -/

/-- The item is a stroked segment. -/
def Item.isSegment {α : Type} : Item α → Bool
  | .segment _ _ _ _ => true
  | _ => false

/-- The item is a blit of the buffer. -/
def Item.isBlit {α : Type} : Item α → Bool
  | .blit _ _ _ => true
  | _ => false

/-- The angle `i * step + this.rotation` of slice `i`, with
`step = (Math.PI * 2) / this.slices`. -/
def sliceRotation {α : Type} (A : Arith α) (s : State α) (i : Nat) : α :=
  A.add (A.mul (A.ofNat i) (A.div (A.mul A.pi (A.ofNat 2)) (A.ofNat s.slices))) s.rotation

/-- The blit of slice `i` by `draw()` for the object `s` (as it is when the
loop runs): the transformation is the identity set by `setTransform`, then
the translation to the centre, then the rotation of the slice, then the
mirror when `i` is odd. -/
def sliceBlit {α : Type} (A : Arith α) (s : State α) (i : Nat) : Item α :=
  Item.blit
    ([TOp.matrix (A.ofNat 1) (A.ofNat 0) (A.ofNat 0) (A.ofNat 1) (A.ofNat 0) (A.ofNat 0),
      TOp.translate (A.div (A.ofNat s.canvasWidth) (A.ofNat 2))
        (A.div (A.ofNat s.canvasHeight) (A.ofNat 2)),
      TOp.rotate (sliceRotation A s i)]
      ++ (if i % 2 = 1 then [TOp.scale (A.neg (A.ofNat 1)) (A.ofNat 1)] else []))
    (A.div (A.neg (A.ofNat s.canvasWidth)) (A.ofNat 2))
    (A.neg (A.ofNat s.canvasHeight))

/-- The event is a call on the context of the buffer canvas. -/
def Event.onBuffer {α : Type} : Event α → Bool
  | .ctx .buffer _ => true
  | _ => false

/-- The event is a call on the context of the visible canvas. -/
def Event.onVisible {α : Type} : Event α → Bool
  | .ctx .visible _ => true
  | _ => false

/-- The event is a `drawImage` call. -/
def Event.isDrawImage {α : Type} : Event α → Bool
  | .ctx _ (.drawImage _ _) => true
  | _ => false

/-- The finite value `x` is exactly `n` times the finite value `v`, as real
numbers. -/
def Binary64.exactMultiple (x v : Binary64) (n : Nat) : Bool :=
  match x.units, v.units with
  | some a, some b => a == (n : Int) * b
  | _, _ => false

/-- The finite value `x` is exactly `r * v ^ j`, as real numbers. -/
def Binary64.exactScaled (x r v : Binary64) (j : Nat) : Bool :=
  match x.units, r.units, v.units with
  | some a, some b, some c => a * ((2 ^ (1074 * j) : Nat) : Int) == b * c ^ j
  | _, _, _ => false

/-- Everything one frame paints, for contexts `w` at its start. -/
def framePaint {α : Type} (A : Arith α) (w : Canvases α) (s : State α) : List (Surface × Item α) :=
  (w.paint (draw A s).2).2

/-! ## Lemmas on running calls -/

theorem Ctx.run_append {α : Type} (c : Ctx α) (xs ys : List (Cmd α)) :
    c.run (xs ++ ys) = ((c.run xs).1.run ys |>.1, (c.run xs).2 ++ ((c.run xs).1.run ys).2) := by
  induction xs generalizing c with
  | nil => simp [Ctx.run]
  | cons x xs ih => simp [Ctx.run, ih, List.append_assoc]

theorem Canvases.paint_append {α : Type} (w : Canvases α) (xs ys : List (Event α)) :
    w.paint (xs ++ ys)
      = ((w.paint xs).1.paint ys |>.1, (w.paint xs).2 ++ ((w.paint xs).1.paint ys).2) := by
  induction xs generalizing w with
  | nil => simp [Canvases.paint]
  | cons x xs ih => simp [Canvases.paint, ih, List.append_assoc]

theorem Canvases.paint_buffer {α : Type} (w : Canvases α) (cmds : List (Cmd α)) :
    w.paint (cmds.map (Event.ctx Surface.buffer))
      = ({ w with buffer := (w.buffer.run cmds).1 },
          (w.buffer.run cmds).2.map fun it => (Surface.buffer, it)) := by
  induction cmds generalizing w with
  | nil => simp [Canvases.paint, Ctx.run]
  | cons x xs ih => simp [Canvases.paint, Canvases.step, Ctx.run, ih]

theorem Canvases.paint_visible {α : Type} (w : Canvases α) (cmds : List (Cmd α)) :
    w.paint (cmds.map (Event.ctx Surface.visible))
      = ({ w with visible := (w.visible.run cmds).1 },
          (w.visible.run cmds).2.map fun it => (Surface.visible, it)) := by
  induction cmds generalizing w with
  | nil => simp [Canvases.paint, Ctx.run]
  | cons x xs ih => simp [Canvases.paint, Canvases.step, Ctx.run, ih]

theorem run_drawFractal {α : Type} (A : Arith α) (s : State α) (depth : Nat) :
    ∀ (c : Ctx α) (x y angle size : α),
      (c.run (drawFractal A s x y angle size depth)).2
          = (callTree A s x y angle size depth).preorder.map (segmentOf A s c.transform)
        ∧ (c.run (drawFractal A s x y angle size depth)).1.transform = c.transform := by
  induction depth with
  | zero => intro c x y angle size; simp [drawFractal, callTree, CallTree.preorder, Ctx.run]
  | succ d ih =>
    intro c x y angle size
    simp only [drawFractal, callTree, CallTree.preorder, List.append_assoc]
    rw [Ctx.run_append, Ctx.run_append]
    simp only [Ctx.run, Ctx.step, List.cons_append, List.nil_append, List.map_cons, List.map_nil,
      List.append_nil, List.map_append]
    refine ⟨?_, ?_⟩
    · rw [(ih _ _ _ _ _).1, (ih _ _ _ _ _).1, (ih _ _ _ _ _).2]
      simp [segmentOf, Call.endX, Call.endY]
    · rw [(ih _ _ _ _ _).2, (ih _ _ _ _ _).2]

theorem drawPatternCmds_eq {α : Type} (A : Arith α) (s : State α) :
    drawPatternCmds A s
      = Cmd.save
        :: Cmd.setTransform (A.ofNat 1) (A.ofNat 0) (A.ofNat 0) (A.ofNat 1) (A.ofNat 0) (A.ofNat 0)
        :: Cmd.clearRect (A.ofNat 0) (A.ofNat 0) (A.ofNat s.bufferWidth) (A.ofNat s.bufferHeight)
        :: Cmd.restore
        :: drawFractal A s (A.ofNat 0) (A.mul (A.neg s.radius) s.scale)
            (A.div (A.neg A.pi) (A.ofNat 2)) s.radius s.iterations := rfl

theorem compositeCmds_eq {α : Type} (A : Arith α) (s : State α) :
    compositeCmds A s
      = Cmd.setTransform (A.ofNat 1) (A.ofNat 0) (A.ofNat 0) (A.ofNat 1) (A.ofNat 0) (A.ofNat 0)
        :: Cmd.clearRect (A.ofNat 0) (A.ofNat 0) (A.ofNat s.canvasWidth) (A.ofNat s.canvasHeight)
        :: Cmd.translate (A.div (A.ofNat s.canvasWidth) (A.ofNat 2))
            (A.div (A.ofNat s.canvasHeight) (A.ofNat 2))
        :: sliceLoop A s (A.div (A.mul A.pi (A.ofNat 2)) (A.ofNat s.slices)) 0 s.slices := rfl

theorem draw_events {α : Type} (A : Arith α) (s : State α) :
    (draw A s).2
      = (drawPatternCmds A s).map (Event.ctx Surface.buffer)
        ++ ((compositeCmds A { s with hue := (s.hue + 1) % 360 }).map (Event.ctx Surface.visible)
        ++ [Event.requestAnimationFrame]) := by
  simp [draw, drawPattern]

theorem run_drawPatternCmds {α : Type} (A : Arith α) (s : State α) (c : Ctx α) :
    (c.run (drawPatternCmds A s)).2
      = Item.clear
          [TOp.matrix (A.ofNat 1) (A.ofNat 0) (A.ofNat 0) (A.ofNat 1) (A.ofNat 0) (A.ofNat 0)]
          (A.ofNat 0) (A.ofNat 0) (A.ofNat s.bufferWidth) (A.ofNat s.bufferHeight)
        :: (patternTree A s).preorder.map (segmentOf A s c.transform) := by
  have h := (run_drawFractal A s s.iterations c (A.ofNat 0) (A.mul (A.neg s.radius) s.scale)
    (A.div (A.neg A.pi) (A.ofNat 2)) s.radius).1
  rw [drawPatternCmds_eq]
  simp only [Ctx.run, Ctx.step, List.nil_append, List.cons_append, patternTree]
  exact congrArg _ h

theorem run_sliceCmds {α : Type} (A : Arith α) (s : State α) (step : α) (i : Nat) (c : Ctx α) :
    c.run (sliceCmds A s step i)
      = (c, [Item.blit
          (c.transform ++ [TOp.rotate (A.add (A.mul (A.ofNat i) step) s.rotation)]
            ++ (if i % 2 = 1 then [TOp.scale (A.neg (A.ofNat 1)) (A.ofNat 1)] else []))
          (A.div (A.neg (A.ofNat s.canvasWidth)) (A.ofNat 2))
          (A.neg (A.ofNat s.canvasHeight))]) := by
  by_cases h : i % 2 = 1 <;> simp [sliceCmds, h, Ctx.run, Ctx.step]

theorem run_sliceLoop {α : Type} (A : Arith α) (s : State α) (step : α) (k : Nat) :
    ∀ (i : Nat) (c : Ctx α),
      c.run (sliceLoop A s step i k)
        = (c, (List.range' i k).map fun i =>
            Item.blit
              (c.transform ++ [TOp.rotate (A.add (A.mul (A.ofNat i) step) s.rotation)]
                ++ (if i % 2 = 1 then [TOp.scale (A.neg (A.ofNat 1)) (A.ofNat 1)] else []))
              (A.div (A.neg (A.ofNat s.canvasWidth)) (A.ofNat 2))
              (A.neg (A.ofNat s.canvasHeight))) := by
  induction k with
  | zero => intro i c; simp [sliceLoop, Ctx.run]
  | succ k ih =>
    intro i c
    simp only [sliceLoop, Ctx.run_append, run_sliceCmds, ih, List.range'_succ, List.map_cons,
      List.singleton_append]

theorem run_compositeCmds {α : Type} (A : Arith α) (s : State α) (c : Ctx α) :
    (c.run (compositeCmds A s)).2
      = Item.clear
          [TOp.matrix (A.ofNat 1) (A.ofNat 0) (A.ofNat 0) (A.ofNat 1) (A.ofNat 0) (A.ofNat 0)]
          (A.ofNat 0) (A.ofNat 0) (A.ofNat s.canvasWidth) (A.ofNat s.canvasHeight)
        :: (List.range s.slices).map (sliceBlit A s) := by
  rw [compositeCmds_eq]
  simp only [Ctx.run, Ctx.step, List.nil_append, List.cons_append, run_sliceLoop,
    List.range_eq_range']
  rfl

/-- Everything one frame paints: the buffer is cleared, the segments of the
calls of `drawFractal` are stroked on it in call order, the visible canvas is
cleared, and the buffer is stamped once per slice. -/
theorem framePaint_eq {α : Type} (A : Arith α) (w : Canvases α) (s : State α) :
    framePaint A w s
      = (Surface.buffer, Item.clear
            [TOp.matrix (A.ofNat 1) (A.ofNat 0) (A.ofNat 0) (A.ofNat 1) (A.ofNat 0) (A.ofNat 0)]
            (A.ofNat 0) (A.ofNat 0) (A.ofNat s.bufferWidth) (A.ofNat s.bufferHeight))
        :: ((patternTree A s).preorder.map fun c =>
              (Surface.buffer, segmentOf A s w.buffer.transform c))
        ++ (Surface.visible, Item.clear
            [TOp.matrix (A.ofNat 1) (A.ofNat 0) (A.ofNat 0) (A.ofNat 1) (A.ofNat 0) (A.ofNat 0)]
            (A.ofNat 0) (A.ofNat 0) (A.ofNat s.canvasWidth) (A.ofNat s.canvasHeight))
        :: ((List.range s.slices).map fun i =>
              (Surface.visible, sliceBlit A { s with hue := (s.hue + 1) % 360 } i)) := by
  have hraf : ∀ v : Canvases α, (v.paint [Event.requestAnimationFrame]).2 = [] := fun _ => rfl
  rw [framePaint, draw_events]
  simp only [Canvases.paint_append, Canvases.paint_buffer, Canvases.paint_visible,
    run_drawPatternCmds, run_compositeCmds, hraf, List.append_nil,
    List.map_cons, List.map_map, List.cons_append]
  rfl

/-! ## Lemmas on the fields -/

theorem draw_state {α : Type} (A : Arith α) (s : State α) :
    (draw A s).1
      = { s with
          hue := (s.hue + 1) % 360
          rotation := if s.animate then A.add s.rotation s.rotationSpeed else s.rotation } := by
  cases h : s.animate <;> simp [draw, drawPattern, h]

theorem frames_succ {α : Type} (A : Arith α) (n : Nat) (s : State α) :
    frames A (n + 1) s = (draw A (frames A n s)).1 := by
  induction n generalizing s with
  | zero => rfl
  | succ n ih => rw [frames, ih]; rfl

theorem frames_animate {α : Type} (A : Arith α) (n : Nat) (s : State α) :
    (frames A n s).animate = s.animate := by
  induction n with
  | zero => rfl
  | succ n ih => rw [frames_succ, draw_state]; exact ih

theorem frames_rotationSpeed {α : Type} (A : Arith α) (n : Nat) (s : State α) :
    (frames A n s).rotationSpeed = s.rotationSpeed := by
  induction n with
  | zero => rfl
  | succ n ih => rw [frames_succ, draw_state]; exact ih

theorem frames_hue {α : Type} (A : Arith α) (n : Nat) (s : State α) (h : s.hue < 360) :
    (frames A n s).hue = (s.hue + n) % 360 := by
  induction n with
  | zero => simp [frames, Nat.mod_eq_of_lt h]
  | succ n ih =>
    rw [frames_succ, draw_state]
    show ((frames A n s).hue + 1) % 360 = _
    rw [ih]
    omega

theorem frames_rotation_on {α : Type} (A : Arith α) (n : Nat) (s : State α)
    (h : s.animate = true) :
    (frames A n s).rotation = (fun r => A.add r s.rotationSpeed)^[n] s.rotation := by
  induction n with
  | zero => rfl
  | succ n ih =>
    rw [frames_succ, draw_state, Function.iterate_succ_apply']
    show (if (frames A n s).animate = true then _ else _) = _
    rw [frames_animate, frames_rotationSpeed, if_pos h, ih]

theorem frames_rotation_off {α : Type} (A : Arith α) (n : Nat) (s : State α)
    (h : s.animate = false) :
    (frames A n s).rotation = s.rotation := by
  induction n with
  | zero => rfl
  | succ n ih =>
    rw [frames_succ, draw_state]
    show (if (frames A n s).animate = true then _ else _) = _
    rw [frames_animate, h, ih]
    simp

/-! ## Lemmas on the tree of calls -/

theorem callTree_preorder_length {α : Type} (A : Arith α) (s : State α) (depth : Nat) :
    ∀ (x y angle size : α),
      (callTree A s x y angle size depth).preorder.length = 2 ^ depth - 1 := by
  induction depth with
  | zero => intro x y angle size; rfl
  | succ d ih =>
    intro x y angle size
    have h1 : 1 ≤ 2 ^ d := Nat.one_le_two_pow
    simp only [callTree, CallTree.preorder, List.length_cons, List.length_append, ih, pow_succ]
    omega

theorem callTree_level {α : Type} (A : Arith α) (s : State α) (j : Nat) :
    ∀ (depth : Nat) (x y angle size : α), j < depth →
      ((callTree A s x y angle size depth).level j).length = 2 ^ j
        ∧ ∀ c ∈ (callTree A s x y angle size depth).level j,
            c.size = (fun L => A.mul L s.scale)^[j] size ∧ c.depth = depth - j := by
  induction j with
  | zero =>
    intro depth x y angle size h
    obtain ⟨d, rfl⟩ := Nat.exists_eq_succ_of_ne_zero (Nat.pos_iff_ne_zero.mp h)
    simp [callTree, CallTree.level]
  | succ j ih =>
    intro depth x y angle size h
    obtain ⟨d, rfl⟩ := Nat.exists_eq_succ_of_ne_zero (Nat.pos_iff_ne_zero.mp (Nat.zero_lt_of_lt h))
    have hj : j < d := Nat.lt_of_succ_lt_succ h
    simp only [callTree, CallTree.level, List.length_append, List.mem_append,
      Function.iterate_succ_apply]
    refine ⟨?_, ?_⟩
    · rw [(ih d _ _ _ _ hj).1, (ih d _ _ _ _ hj).1, pow_succ]; omega
    · intro c hc
      have hd : d + 1 - (j + 1) = d - j := by omega
      rw [hd]
      rcases hc with hc | hc
      · exact (ih d _ _ _ _ hj).2 c hc
      · exact (ih d _ _ _ _ hj).2 c hc

theorem callTree_followsRule {α : Type} (A : Arith α) (s : State α) (depth : Nat) :
    ∀ (x y angle size : α), FollowsRule A s (callTree A s x y angle size depth) := by
  induction depth with
  | zero => intro x y angle size; trivial
  | succ d ih =>
    intro x y angle size
    cases d with
    | zero => simp [callTree, FollowsRule, RuleChild]
    | succ e =>
      have h1 := ih (A.add x (A.mul (A.cos angle) size)) (A.add y (A.mul (A.sin angle) size))
        (A.add angle s.angle) (A.mul size s.scale)
      have h2 := ih (A.add x (A.mul (A.cos angle) size)) (A.add y (A.mul (A.sin angle) size))
        (A.sub angle s.angle) (A.mul size s.scale)
      rw [callTree]
      refine ⟨Nat.succ_pos _, ?_, ?_, h1, h2⟩
      · rw [callTree]; exact ⟨by simp, rfl⟩
      · rw [callTree]; exact ⟨by simp, rfl⟩

theorem ofField_iterate_mul (K : Type) [Field K] (cosK sinK : K → K) (piK : K) (r v : K)
    (j : Nat) :
    (fun L => (Arith.ofField K cosK sinK piK).mul L v)^[j] r = r * v ^ j := by
  induction j with
  | zero => simp
  | succ j ih => rw [Function.iterate_succ_apply', ih]; simp [Arith.ofField, pow_succ, mul_assoc]

theorem ofField_iterate_add (K : Type) [Field K] (cosK sinK : K → K) (piK : K) (v : K)
    (n : Nat) :
    (fun r => (Arith.ofField K cosK sinK piK).add r v)^[n] ((Arith.ofField K cosK sinK piK).ofNat 0)
      = (n : K) * v := by
  induction n with
  | zero => simp [Arith.ofField]
  | succ n ih =>
    rw [Function.iterate_succ_apply', ih]
    simp [Arith.ofField, add_mul]

/-! ## Lemmas on what is painted -/

theorem filter_segments_map {α : Type} (A : Arith α) (s : State α) (T : List (TOp α))
    (l : List (Call α)) :
    (l.map (segmentOf A s T)).filter Item.isSegment = l.map (segmentOf A s T) := by
  rw [List.filter_eq_self]
  intro a ha
  obtain ⟨c, _, rfl⟩ := List.mem_map.mp ha
  rfl

theorem pattern_segments {α : Type} (A : Arith α) (s : State α) (c : Ctx α) :
    (c.run (drawPattern A s).2).2.filter Item.isSegment
      = (patternTree A s).preorder.map (segmentOf A s c.transform) := by
  show (c.run (drawPatternCmds A s)).2.filter Item.isSegment = _
  rw [run_drawPatternCmds, List.filter_cons]
  simp only [Item.isSegment, Bool.false_eq_true, if_false]
  exact filter_segments_map A s _ _

theorem pattern_segment_count {α : Type} (A : Arith α) (s : State α) (c : Ctx α) :
    ((c.run (drawPattern A s).2).2.filter Item.isSegment).length = 2 ^ s.iterations - 1 := by
  rw [pattern_segments, List.length_map, patternTree, callTree_preorder_length]

theorem frame_blits {α : Type} (A : Arith α) (w : Canvases α) (s : State α) :
    (framePaint A w s).filter (fun p => p.2.isBlit)
      = (List.range s.slices).map fun i =>
          (Surface.visible, sliceBlit A { s with hue := (s.hue + 1) % 360 } i) := by
  have h1 : ((patternTree A s).preorder.map fun c =>
      (Surface.buffer, segmentOf A s w.buffer.transform c)).filter (fun p => p.2.isBlit) = [] := by
    rw [List.filter_eq_nil_iff]
    intro a ha
    obtain ⟨c, _, rfl⟩ := List.mem_map.mp ha
    simp [segmentOf, Item.isBlit]
  have h2 : ((List.range s.slices).map fun i =>
      (Surface.visible, sliceBlit A { s with hue := (s.hue + 1) % 360 } i)).filter
        (fun p => p.2.isBlit)
      = (List.range s.slices).map fun i =>
          (Surface.visible, sliceBlit A { s with hue := (s.hue + 1) % 360 } i) := by
    rw [List.filter_eq_self]
    intro a ha
    obtain ⟨c, _, rfl⟩ := List.mem_map.mp ha
    simp [sliceBlit, Item.isBlit]
  rw [framePaint_eq, List.filter_append, List.filter_cons_of_neg (by simp [Item.isBlit]),
    List.filter_cons_of_neg (by simp [Item.isBlit]), h1, h2, List.nil_append]

theorem drawFractal_congr {α : Type} (A : Arith α) (s1 s2 : State α) (hh : s1.hue = s2.hue)
    (ha : s1.angle = s2.angle) (hs : s1.scale = s2.scale) (depth : Nat) :
    ∀ (x y angle size : α),
      drawFractal A s1 x y angle size depth = drawFractal A s2 x y angle size depth := by
  induction depth with
  | zero => intro x y angle size; rfl
  | succ d ih =>
    intro x y angle size
    simp only [drawFractal, hh, ha, hs, ih]

theorem sliceLoop_congr {α : Type} (A : Arith α) (s1 s2 : State α)
    (hr : s1.rotation = s2.rotation) (hw : s1.canvasWidth = s2.canvasWidth)
    (hh : s1.canvasHeight = s2.canvasHeight) (step : α) (k : Nat) :
    ∀ i : Nat, sliceLoop A s1 step i k = sliceLoop A s2 step i k := by
  induction k with
  | zero => intro i; rfl
  | succ k ih =>
    intro i
    simp only [sliceLoop, sliceCmds, hr, hw, hh, ih]

theorem draw_events_congr {α : Type} (A : Arith α) (s1 s2 : State α) (h1 : s1.hue = s2.hue)
    (h2 : s1.rotation = s2.rotation) (h3 : s1.slices = s2.slices) (h4 : s1.radius = s2.radius)
    (h5 : s1.angle = s2.angle) (h6 : s1.scale = s2.scale) (h7 : s1.iterations = s2.iterations)
    (h8 : s1.canvasWidth = s2.canvasWidth) (h9 : s1.canvasHeight = s2.canvasHeight)
    (h10 : s1.bufferWidth = s2.bufferWidth) (h11 : s1.bufferHeight = s2.bufferHeight) :
    (draw A s1).2 = (draw A s2).2 := by
  rw [draw_events, draw_events, drawPatternCmds_eq, drawPatternCmds_eq, compositeCmds_eq,
    compositeCmds_eq]
  rw [drawFractal_congr A s1 s2 h1 h5 h6,
    sliceLoop_congr A { s1 with hue := (s1.hue + 1) % 360 } { s2 with hue := (s2.hue + 1) % 360 }
      h2 h8 h9]
  simp only [h3, h4, h6, h7, h8, h9, h10, h11]

theorem buffer_events_not_visible {α : Type} (cmds : List (Cmd α)) :
    ∀ e ∈ cmds.map (Event.ctx Surface.buffer), Event.onVisible e = false := by
  intro e he
  obtain ⟨c, _, rfl⟩ := List.mem_map.mp he
  rfl

theorem visible_events_not_buffer {α : Type} (cmds : List (Cmd α)) :
    ∀ e ∈ cmds.map (Event.ctx Surface.visible) ++ [Event.requestAnimationFrame],
      Event.onBuffer e = false := by
  intro e he
  rcases List.mem_append.mp he with he | he
  · obtain ⟨c, _, rfl⟩ := List.mem_map.mp he
    rfl
  · rw [List.mem_singleton.mp he]; rfl

theorem pairwise_split {β : Type} (R : β → β → Prop) (l1 l2 : List β)
    (h1 : ∀ a ∈ l1, ∀ b, R a b) (h2 : ∀ b ∈ l2, ∀ a, R a b) : (l1 ++ l2).Pairwise R := by
  rw [List.pairwise_append]
  refine ⟨?_, ?_, ?_⟩
  · exact List.pairwise_of_forall_mem_list fun a ha b _ => h1 a ha b
  · exact List.pairwise_of_forall_mem_list fun a _ b hb => h2 b hb a
  · intro a ha b _
    exact h1 a ha b

theorem State.new_rotationSpeed {α : Type} (A : Arith α) (slices : Nat) (radius : α)
    (width height : Nat) : (State.new A slices radius width height).rotationSpeed = A.dec 2 2 :=
  rfl

theorem State.new_rotation {α : Type} (A : Arith α) (slices : Nat) (radius : α)
    (width height : Nat) : (State.new A slices radius width height).rotation = A.ofNat 0 :=
  rfl

theorem State.new_radius {α : Type} (A : Arith α) (slices : Nat) (radius : α)
    (width height : Nat) : (State.new A slices radius width height).radius = radius :=
  rfl

theorem State.new_scale {α : Type} (A : Arith α) (slices : Nat) (radius : α)
    (width height : Nat) : (State.new A slices radius width height).scale = A.dec 7 1 :=
  rfl

theorem State.new_iterations {α : Type} (A : Arith α) (slices : Nat) (radius : α)
    (width height : Nat) : (State.new A slices radius width height).iterations = 5 :=
  rfl

theorem State.new_animate {α : Type} (A : Arith α) (slices : Nat) (radius : α)
    (width height : Nat) : (State.new A slices radius width height).animate = true :=
  rfl

theorem run_drawPatternCmds_transform {α : Type} (A : Arith α) (s : State α) (c : Ctx α) :
    (c.run (drawPatternCmds A s)).1.transform = c.transform := by
  have h := (run_drawFractal A s s.iterations c (A.ofNat 0) (A.mul (A.neg s.radius) s.scale)
    (A.div (A.neg A.pi) (A.ofNat 2)) s.radius).2
  rw [drawPatternCmds_eq]
  simp only [Ctx.run, Ctx.step]
  exact h

theorem frame_buffer_transform {α : Type} (A : Arith α) (w : Canvases α) (s : State α) :
    (w.paint (draw A s).2).1.buffer.transform = w.buffer.transform := by
  have hraf : ∀ v : Canvases α, (v.paint [Event.requestAnimationFrame]).1 = v := fun _ => rfl
  rw [draw_events]
  simp only [Canvases.paint_append, Canvases.paint_buffer, Canvases.paint_visible, hraf]
  exact run_drawPatternCmds_transform A s w.buffer

/-! ## Evaluations in binary64 -/

theorem binary64_quarter_0 :
    Binary64.add (Binary64.mul (Binary64.ofNat 0)
        (Binary64.div (Binary64.mul Binary64.pi (Binary64.ofNat 2)) (Binary64.ofNat 4)))
        (Binary64.ofNat 0)
      = Binary64.ofNat 0 := by decide

theorem binary64_quarter_1 :
    Binary64.add (Binary64.mul (Binary64.ofNat 1)
        (Binary64.div (Binary64.mul Binary64.pi (Binary64.ofNat 2)) (Binary64.ofNat 4)))
        (Binary64.ofNat 0)
      = Binary64.div Binary64.pi (Binary64.ofNat 2) := by decide

theorem binary64_quarter_2 :
    Binary64.add (Binary64.mul (Binary64.ofNat 2)
        (Binary64.div (Binary64.mul Binary64.pi (Binary64.ofNat 2)) (Binary64.ofNat 4)))
        (Binary64.ofNat 0)
      = Binary64.pi := by decide

theorem binary64_quarter_3 :
    Binary64.add (Binary64.mul (Binary64.ofNat 3)
        (Binary64.div (Binary64.mul Binary64.pi (Binary64.ofNat 2)) (Binary64.ofNat 4)))
        (Binary64.ofNat 0)
      = Binary64.div (Binary64.mul (Binary64.ofNat 3) Binary64.pi) (Binary64.ofNat 2) := by
  decide

theorem binary64_six_steps :
    ¬ ((fun r => Binary64.add r (Binary64.dec 2 2))^[6] (Binary64.ofNat 0)
          = Binary64.mul (Binary64.ofNat 6) (Binary64.dec 2 2)
        ∨ Binary64.exactMultiple
            ((fun r => Binary64.add r (Binary64.dec 2 2))^[6] (Binary64.ofNat 0))
            (Binary64.dec 2 2) 6 = true) := by
  decide

theorem binary64_two_levels :
    ¬ ((fun L => Binary64.mul L (Binary64.dec 7 1))^[2] (Binary64.ofNat 300)
          = Binary64.mul (Binary64.ofNat 300)
              (Binary64.mul (Binary64.mul (Binary64.ofNat 1) (Binary64.dec 7 1))
                (Binary64.dec 7 1))
        ∨ Binary64.exactScaled
            ((fun L => Binary64.mul L (Binary64.dec 7 1))^[2] (Binary64.ofNat 300))
            (Binary64.ofNat 300) (Binary64.dec 7 1) 2 = true) := by
  decide

/-! ## The claims -/

/-- C1: one call of `drawPattern()` strokes exactly `2 ^ iterations - 1` line
segments on the buffer, for every arithmetic, every object (so every radius,
angle and scale) and every state of the buffer context; that is none for
`iterations = 0` and 31 for the default `iterations = 5`. -/
theorem C1_segment_count {α : Type} (A : Arith α) (s : State α) (c : Ctx α) :
    ((c.run (drawPattern A s).2).2.filter Item.isSegment).length = 2 ^ s.iterations - 1
      ∧ ((c.run (drawPattern A { s with iterations := 0 }).2).2.filter Item.isSegment).length = 0
      ∧ ((c.run (drawPattern A { s with iterations := 5 }).2).2.filter
            Item.isSegment).length = 31 :=
  ⟨pattern_segment_count A s c, pattern_segment_count A _ c, pattern_segment_count A _ c⟩

/-- C2: one call of `draw()` blits the buffer on the visible canvas exactly
`slices` times; blit `i` is made under the identity reset by `setTransform`,
then `translate(width / 2, height / 2)`, then `rotate(i * step + rotation)` with
`step = (Math.PI * 2) / slices`, then `scale(-1, 1)` exactly when `i` is odd, at
offset `(-width / 2, -height)`: the rotations of earlier slices are not in it.
For an object constructed with 4 slices (rotation 0) the four angles are
`0, pi / 2, pi, 3 * pi / 2`, in binary64 and in exact arithmetic alike, and
slices 1 and 3 are the mirrored ones. -/
theorem C2_slice_blits {α : Type} (A : Arith α) (w : Canvases α) (s : State α) :
    ((framePaint A w s).filter (fun p => p.2.isBlit)
        = (List.range s.slices).map fun i =>
            (Surface.visible,
              Item.blit
                ([TOp.matrix (A.ofNat 1) (A.ofNat 0) (A.ofNat 0) (A.ofNat 1) (A.ofNat 0)
                    (A.ofNat 0),
                  TOp.translate (A.div (A.ofNat s.canvasWidth) (A.ofNat 2))
                    (A.div (A.ofNat s.canvasHeight) (A.ofNat 2)),
                  TOp.rotate (A.add (A.mul (A.ofNat i)
                    (A.div (A.mul A.pi (A.ofNat 2)) (A.ofNat s.slices))) s.rotation)]
                  ++ (if i % 2 = 1 then [TOp.scale (A.neg (A.ofNat 1)) (A.ofNat 1)] else []))
                (A.div (A.neg (A.ofNat s.canvasWidth)) (A.ofNat 2))
                (A.neg (A.ofNat s.canvasHeight))))
      ∧ ((framePaint A w s).filter (fun p => p.2.isBlit)).length = s.slices
      ∧ (∀ (cosB sinB : Binary64 → Binary64) (width height : Nat),
          (List.range 4).map
              (sliceRotation (Arith.binary64 cosB sinB)
                (State.new (Arith.binary64 cosB sinB) 4 (Binary64.ofNat 300) width height))
            = [Binary64.ofNat 0, Binary64.div Binary64.pi (Binary64.ofNat 2), Binary64.pi,
                Binary64.div (Binary64.mul (Binary64.ofNat 3) Binary64.pi) (Binary64.ofNat 2)])
      ∧ (∀ (K : Type) [Field K] [CharZero K] (cosK sinK : K → K) (piK radius : K)
            (width height : Nat),
          (List.range 4).map
              (sliceRotation (Arith.ofField K cosK sinK piK)
                (State.new (Arith.ofField K cosK sinK piK) 4 radius width height))
            = [0, piK / 2, piK, 3 * piK / 2])
      ∧ (List.range 4).filter (fun i => i % 2 = 1) = [1, 3] := by
  refine ⟨?_, ?_, ?_, ?_, by decide⟩
  · rw [frame_blits]; rfl
  · rw [frame_blits, List.length_map, List.length_range]
  · intro cosB sinB width height
    have e1 : (Arith.binary64 cosB sinB).ofNat = Binary64.ofNat := rfl
    have e2 : (Arith.binary64 cosB sinB).add = Binary64.add := rfl
    have e3 : (Arith.binary64 cosB sinB).mul = Binary64.mul := rfl
    have e4 : (Arith.binary64 cosB sinB).div = Binary64.div := rfl
    have e5 : (Arith.binary64 cosB sinB).pi = Binary64.pi := rfl
    have hs : (State.new (Arith.binary64 cosB sinB) 4 (Binary64.ofNat 300) width height).slices
        = 4 := rfl
    have hr : (State.new (Arith.binary64 cosB sinB) 4 (Binary64.ofNat 300) width height).rotation
        = (Arith.binary64 cosB sinB).ofNat 0 := rfl
    simp only [List.range, List.range.loop, List.map_cons, List.map_nil]
    rw [sliceRotation, sliceRotation, sliceRotation, sliceRotation, hs, hr, e1, e2, e3, e4, e5,
      binary64_quarter_0, binary64_quarter_1, binary64_quarter_2, binary64_quarter_3]
  · intro K _ _ cosK sinK piK radius width height
    simp only [List.range, List.range.loop, List.map_cons, List.map_nil, sliceRotation,
      State.new, Arith.ofField]
    have h4 : (4 : K) ≠ 0 := by norm_num
    simp only [List.cons.injEq, and_true]
    refine ⟨by simp, ?_, ?_, ?_⟩
    · field_simp; ring
    · field_simp; ring
    · field_simp; ring

/-- C3: starting from `hue = 0` (as the constructor leaves it), whatever the
other fields are, the field `hue` after `N` frames is `N mod 360`, and so is
below 360. -/
theorem C3_hue_after_frames {α : Type} (A : Arith α) (s : State α) (N : Nat) :
    (frames A N { s with hue := 0 }).hue = N % 360
      ∧ (frames A N { s with hue := 0 }).hue < 360
      ∧ ∀ (slices : Nat) (radius : α) (width height : Nat),
          (frames A N (State.new A slices radius width height)).hue = N % 360 := by
  have h : ∀ t : State α, t.hue = 0 → (frames A N t).hue = N % 360 := by
    intro t ht
    rw [frames_hue A N t (by omega), ht, Nat.zero_add]
  refine ⟨h _ rfl, ?_, fun _ _ _ _ => h _ rfl⟩
  rw [h _ rfl]
  exact Nat.mod_lt _ (by decide)

/-- C5: with `animate = false`, any number of frames leaves the field
`rotation` as it was, whatever `rotationSpeed` is. -/
theorem C5_rotation_unchanged {α : Type} (A : Arith α) (s : State α) (N : Nat) :
    (frames A N { s with animate := false }).rotation = s.rotation :=
  frames_rotation_off A N { s with animate := false } rfl

/-- C6: the events of `draw()` (the calls on the two contexts, in order) and
what they paint depend only on `hue`, `rotation`, `slices`, `radius`, `angle`,
`scale`, `iterations` and the dimensions of the two canvases: changing
`animate`, `rotationSpeed`, `offsetX` and `offsetY` changes nothing. With
`animate = false` a frame changes no field but `hue`, so a second call at the
same `hue`, on the contexts the first call left, emits the same events and
paints the same as the first. -/
theorem C6_same_state_same_output {α : Type} (A : Arith α) (s : State α) (w : Canvases α)
    (a : Bool) (v ox oy : α) :
    (draw A { s with animate := a, rotationSpeed := v, offsetX := ox, offsetY := oy }).2
        = (draw A s).2
      ∧ framePaint A w { s with animate := a, rotationSpeed := v, offsetX := ox, offsetY := oy }
        = framePaint A w s
      ∧ { (draw A { s with animate := false }).1 with hue := s.hue } = { s with animate := false }
      ∧ (draw A { (draw A { s with animate := false }).1 with hue := s.hue }).2
        = (draw A { s with animate := false }).2
      ∧ framePaint A (w.paint (draw A { s with animate := false }).2).1
          { (draw A { s with animate := false }).1 with hue := s.hue }
        = framePaint A w { s with animate := false } := by
  have h1 : (draw A { s with animate := a, rotationSpeed := v, offsetX := ox, offsetY := oy }).2
      = (draw A s).2 :=
    draw_events_congr A _ s rfl rfl rfl rfl rfl rfl rfl rfl rfl rfl rfl
  have h3 : { (draw A { s with animate := false }).1 with hue := s.hue }
      = { s with animate := false } := by
    rw [draw_state]; rfl
  refine ⟨h1, ?_, h3, ?_, ?_⟩
  · rw [framePaint, framePaint, h1]
  · rw [h3]
  · rw [h3, framePaint_eq, framePaint_eq, frame_buffer_transform]

/-- C7: in the events of one `draw()`, no call on the buffer context comes
after a call on the visible context: the events are the calls of
`drawPattern()` on the buffer (its `clearRect` and every `stroke`), then the
calls on the visible canvas (its `clearRect` and every `drawImage`), then the
request for the next frame; and nothing is painted on the buffer after
something is painted on the visible canvas. -/
theorem C7_pattern_before_composite {α : Type} (A : Arith α) (s : State α) (w : Canvases α) :
    (draw A s).2
        = (drawPattern A s).2.map (Event.ctx Surface.buffer)
          ++ ((compositeCmds A (drawPattern A s).1).map (Event.ctx Surface.visible)
          ++ [Event.requestAnimationFrame])
      ∧ (draw A s).2.Pairwise (fun e1 e2 => ¬ (e1.onVisible = true ∧ e2.onBuffer = true))
      ∧ (framePaint A w s).Pairwise
          (fun p q => ¬ (p.1 = Surface.visible ∧ q.1 = Surface.buffer)) := by
  refine ⟨draw_events A s, ?_, ?_⟩
  · rw [draw_events]
    apply pairwise_split
    · intro e he b hb
      rw [buffer_events_not_visible _ e he] at hb
      exact absurd hb.1 (by decide)
    · intro e he b hb
      rw [visible_events_not_buffer _ e he] at hb
      exact absurd hb.2 (by decide)
  · rw [framePaint_eq]
    apply pairwise_split
    · intro p hp q hq
      have : p.1 = Surface.buffer := by
        rcases List.mem_cons.mp hp with hp | hp
        · rw [hp]
        · obtain ⟨c, _, rfl⟩ := List.mem_map.mp hp
          rfl
      rw [this] at hq
      exact absurd hq.1 (by decide)
    · intro p hp q hq
      have : p.1 = Surface.visible := by
        rcases List.mem_cons.mp hp with hp | hp
        · rw [hp]
        · obtain ⟨c, _, rfl⟩ := List.mem_map.mp hp
          rfl
      rw [this] at hq
      exact absurd hq.2 (by decide)

/-- C8: with `slices = 0` a call of `draw()` still returns: nothing is
blitted, the only calls on the visible context are `setTransform`,
`clearRect` and `translate`, the fields change exactly as for any other number
of slices (`hue` becomes `(hue + 1) mod 360`, `rotation` gets `rotationSpeed`
added when `animate` is set), and the step `(Math.PI * 2) / 0` is the binary64
value `+Infinity`, not an error. -/
theorem C8_zero_slices {α : Type} (A : Arith α) (s : State α) (w : Canvases α) :
    (framePaint A w { s with slices := 0 }).filter (fun p => p.2.isBlit) = []
      ∧ (draw A { s with slices := 0 }).2.filter Event.onVisible
        = [Event.ctx Surface.visible
            (Cmd.setTransform (A.ofNat 1) (A.ofNat 0) (A.ofNat 0) (A.ofNat 1) (A.ofNat 0)
              (A.ofNat 0)),
           Event.ctx Surface.visible
            (Cmd.clearRect (A.ofNat 0) (A.ofNat 0) (A.ofNat s.canvasWidth)
              (A.ofNat s.canvasHeight)),
           Event.ctx Surface.visible
            (Cmd.translate (A.div (A.ofNat s.canvasWidth) (A.ofNat 2))
              (A.div (A.ofNat s.canvasHeight) (A.ofNat 2)))]
      ∧ (draw A { s with slices := 0 }).1 = { (draw A s).1 with slices := 0 }
      ∧ (draw A { s with slices := 0 }).1.hue = (s.hue + 1) % 360
      ∧ (draw A { s with slices := 0 }).1.rotation
        = (if s.animate then A.add s.rotation s.rotationSpeed else s.rotation)
      ∧ Binary64.div (Binary64.mul Binary64.pi (Binary64.ofNat 2)) (Binary64.ofNat 0)
        = Binary64.inf false := by
  refine ⟨?_, ?_, ?_, ?_, ?_, by decide⟩
  · rw [frame_blits]; rfl
  · rw [draw_events, List.filter_append,
      List.filter_eq_nil_iff.mpr (fun e he => by rw [buffer_events_not_visible _ e he]; decide)]
    rfl
  · rw [draw_state, draw_state]
  · rw [draw_state]
  · rw [draw_state]

/-- C10: every segment `drawPattern()` strokes has colour
`hsl(h, 100%, 70%)`, with `h` the value of `hue` before the call, and line
width 2; the call then sets `hue` to `(h + 1) mod 360`, once, whatever
`iterations` is; so, starting from `hue = 0`, the segments of frame `n` all
have hue `n mod 360`. -/
theorem C10_segment_style {α : Type} (A : Arith α) (s : State α) (c : Ctx α) (n : Nat) :
    (∀ it ∈ (c.run (drawPattern A s).2).2, it.isSegment = true →
        ∃ p q, it = Item.segment ⟨s.hue, 100, 70⟩ (A.ofNat 2) p q)
      ∧ (drawPattern A s).1 = { s with hue := (s.hue + 1) % 360 }
      ∧ (∀ it ∈ (c.run (drawPattern A (frames A n { s with hue := 0 })).2).2,
          it.isSegment = true → ∃ p q, it = Item.segment ⟨n % 360, 100, 70⟩ (A.ofNat 2) p q) := by
  have h : ∀ t : State α, ∀ it ∈ (c.run (drawPattern A t).2).2, it.isSegment = true →
      ∃ p q, it = Item.segment ⟨t.hue, 100, 70⟩ (A.ofNat 2) p q := by
    intro t it hit hseg
    have hmem : it ∈ (c.run (drawPattern A t).2).2.filter Item.isSegment :=
      List.mem_filter.mpr ⟨hit, hseg⟩
    rw [pattern_segments] at hmem
    obtain ⟨cl, _, rfl⟩ := List.mem_map.mp hmem
    exact ⟨_, _, rfl⟩
  refine ⟨h s, rfl, ?_⟩
  intro it hit hseg
  have := h _ it hit hseg
  rwa [frames_hue A n _ (by show 0 < 360; decide), Nat.zero_add] at this

/-- C4 (amended): starting from `rotation = 0` with `animate = true`, the
field `rotation` after `N` frames is what `N` successive additions of
`rotationSpeed` to 0 give in the arithmetic of the program, with no wrap; in
exact arithmetic that is `N * rotationSpeed`. -/
theorem C4_rotation_accumulates :
    (∀ (α : Type) (A : Arith α) (s : State α) (N : Nat),
        (frames A N { s with rotation := A.ofNat 0, animate := true }).rotation
          = (fun r => A.add r s.rotationSpeed)^[N] (A.ofNat 0))
      ∧ (∀ (K : Type) [Field K] (cosK sinK : K → K) (piK : K) (s : State K) (N : Nat),
          (frames (Arith.ofField K cosK sinK piK) N
              { s with rotation := (Arith.ofField K cosK sinK piK).ofNat 0,
                       animate := true }).rotation
            = (N : K) * s.rotationSpeed) := by
  refine ⟨?_, ?_⟩
  · intro α A s N
    exact frames_rotation_on A N { s with rotation := A.ofNat 0, animate := true } rfl
  · intro K _ cosK sinK piK s N
    rw [frames_rotation_on _ N _ rfl]
    exact ofField_iterate_add K cosK sinK piK s.rotationSpeed N

/-- C4 as stated fails in binary64: for a freshly constructed object
(`rotationSpeed = 0.02`, `rotation = 0`, `animate = true`) the field
`rotation` after 6 frames is `0.12000000000000001`, which is neither the
binary64 product `6 * 0.02 = 0.12` nor exactly six times the value of `0.02`,
whatever `Math.cos` and `Math.sin` are. -/
theorem C4_counterexample :
    ¬ ∃ cosB sinB : Binary64 → Binary64,
        (frames (Arith.binary64 cosB sinB) 6
            (State.new (Arith.binary64 cosB sinB) 8 (Binary64.ofNat 300) 800 600)).rotation
          = Binary64.mul (Binary64.ofNat 6) (Binary64.dec 2 2)
        ∨ Binary64.exactMultiple
            (frames (Arith.binary64 cosB sinB) 6
              (State.new (Arith.binary64 cosB sinB) 8 (Binary64.ofNat 300) 800 600)).rotation
            (Binary64.dec 2 2) 6 = true := by
  rintro ⟨cosB, sinB, h⟩
  have e1 : (Arith.binary64 cosB sinB).ofNat = Binary64.ofNat := rfl
  have e2 : (Arith.binary64 cosB sinB).add = Binary64.add := rfl
  have e3 : (Arith.binary64 cosB sinB).dec = Binary64.dec := rfl
  rw [frames_rotation_on _ 6 _ (State.new_animate _ _ _ _ _), State.new_rotationSpeed,
    State.new_rotation, e1, e2, e3] at h
  exact binary64_six_steps h

/-- C9 (amended): the segments `drawPattern()` strokes are those of the calls
of `drawFractal`, in call order, each from `(x, y)` to
`(x + cos(angle) * size, y + sin(angle) * size)`; the first call is at
`(0, -radius * scale)` with angle `-Math.PI / 2`, length `radius` and depth
`iterations`; the calls follow the recursion rule; level `j` (for
`j < iterations`) has exactly `2 ^ j` calls, each of depth `iterations - j` and
of the length that `j` successive multiplications of `radius` by `scale` give
in the arithmetic of the program, with no clamping; in exact arithmetic that
length is `radius * scale ^ j`. -/
theorem C9_recursion_rule :
    (∀ (α : Type) (A : Arith α) (s : State α) (c : Ctx α),
        (c.run (drawPattern A s).2).2.filter Item.isSegment
            = (patternTree A s).preorder.map (segmentOf A s c.transform)
          ∧ (patternTree A s).root
            = (if s.iterations = 0 then none
               else some ⟨A.ofNat 0, A.mul (A.neg s.radius) s.scale,
                  A.div (A.neg A.pi) (A.ofNat 2), s.radius, s.iterations⟩)
          ∧ FollowsRule A s (patternTree A s)
          ∧ ∀ j, j < s.iterations →
              ((patternTree A s).level j).length = 2 ^ j
                ∧ ∀ b ∈ (patternTree A s).level j,
                    b.size = (fun L => A.mul L s.scale)^[j] s.radius
                      ∧ b.depth = s.iterations - j)
      ∧ (∀ (K : Type) [Field K] (cosK sinK : K → K) (piK : K) (s : State K) (j : Nat),
          j < s.iterations →
            ∀ b ∈ (patternTree (Arith.ofField K cosK sinK piK) s).level j,
              b.size = s.radius * s.scale ^ j) := by
  refine ⟨?_, ?_⟩
  · intro α A s c
    refine ⟨pattern_segments A s c, ?_, callTree_followsRule A s _ _ _ _ _, ?_⟩
    · unfold patternTree
      cases s.iterations with
      | zero => rfl
      | succ d => rfl
    · intro j hj
      exact callTree_level A s j s.iterations _ _ _ _ hj
  · intro K _ cosK sinK piK s j hj b hb
    have h := (callTree_level (Arith.ofField K cosK sinK piK) s j s.iterations _ _ _ _ hj).2 b hb
    rw [h.1]
    exact ofField_iterate_mul K cosK sinK piK s.radius s.scale j

/-- C9 as stated fails in binary64: for an object constructed with radius 300
(`scale = 0.7`, `iterations = 5`) the calls two levels below the root have
length `300 * 0.7 * 0.7 = 147`, which is neither the binary64 value of
`300 * 0.7 ^ 2` (`146.99999999999997`) nor exactly `300` times the square of the
value of `0.7`, whatever `Math.cos` and `Math.sin` are. -/
theorem C9_counterexample :
    ¬ ∃ cosB sinB : Binary64 → Binary64,
        ∀ b ∈ (patternTree (Arith.binary64 cosB sinB)
              (State.new (Arith.binary64 cosB sinB) 8 (Binary64.ofNat 300) 800 600)).level 2,
          b.size
              = Binary64.mul (Binary64.ofNat 300)
                  ((Arith.binary64 cosB sinB).pow (Binary64.dec 7 1) 2)
            ∨ Binary64.exactScaled b.size (Binary64.ofNat 300) (Binary64.dec 7 1) 2 = true := by
  rintro ⟨cosB, sinB, h⟩
  have e1 : (Arith.binary64 cosB sinB).ofNat = Binary64.ofNat := rfl
  have e2 : (Arith.binary64 cosB sinB).mul = Binary64.mul := rfl
  have e3 : (Arith.binary64 cosB sinB).dec = Binary64.dec := rfl
  have hl := callTree_level (Arith.binary64 cosB sinB)
    (State.new (Arith.binary64 cosB sinB) 8 (Binary64.ofNat 300) 800 600) 2 5
    ((Arith.binary64 cosB sinB).ofNat 0)
    ((Arith.binary64 cosB sinB).mul ((Arith.binary64 cosB sinB).neg
      (State.new (Arith.binary64 cosB sinB) 8 (Binary64.ofNat 300) 800 600).radius)
      (State.new (Arith.binary64 cosB sinB) 8 (Binary64.ofNat 300) 800 600).scale)
    ((Arith.binary64 cosB sinB).div ((Arith.binary64 cosB sinB).neg (Arith.binary64 cosB sinB).pi)
      ((Arith.binary64 cosB sinB).ofNat 2))
    (State.new (Arith.binary64 cosB sinB) 8 (Binary64.ofNat 300) 800 600).radius (by decide)
  rw [patternTree, State.new_iterations] at h
  obtain ⟨b, hb⟩ := List.exists_mem_of_length_pos (by rw [hl.1]; decide :
    0 < ((callTree (Arith.binary64 cosB sinB)
      (State.new (Arith.binary64 cosB sinB) 8 (Binary64.ofNat 300) 800 600) _ _ _ _ 5).level
        2).length)
  have hb2 := h b hb
  rw [(hl.2 b hb).1, State.new_radius, State.new_scale, Arith.pow, Arith.pow, Arith.pow, e1, e2,
    e3] at hb2
  exact binary64_two_levels hb2

end Kaleidoscope
